import Mathlib

/-!
# A verification development for the tinytorch tensor engine

This file embeds the forward, graph-building part of the tinytorch
repository (a minimal automatic-differentiation engine over n-dimensional
arrays, plus a small neural-network layer `Neuron`/`Layer`/`MLP`) and
proves the stated behavioural properties about it.

The visible sources of the repository contain the network layer
(`tinytorch/nn.py`) and the test-suite, but not the tensor engine itself
(`tinytorch/engine.py`): the engine definitions below are therefore
modelled from the specification of the engine, as their doc comments
state.  Array elements are modelled as integers `Int`: every numeric
example exercised by a property is integer valued, and on integers the
modelled operations (add, sub, mul, pow, sum, matmul, stack) agree
exactly with the float semantics of the array backend.  Division,
logarithm and the transcendental activation forwards (tanh, sigmoid),
whose float semantics has no exact counterpart on this carrier, are
modelled with their elementwise numeric functions abstracted while their
graph structure (op tag, children) is modelled exactly.

Object identity (Python reference identity, on which the `children` set
of a tensor is keyed) is modelled by a numeric id `tid` carried by every
tensor; `children` is the finite set of the operand ids.  Derived nodes
are given id 0 here because no stated property inspects the identity of
a result node, only the identities of its operands.
-/

/-- Modelled from the spec: the operation tag recorded on every tensor
(`tinytorch/engine.py`, absent from the visible sources).  `NONE` marks a
user-created leaf; the other tags name the operation that produced the
tensor.  `LIN` is the dedicated tag of the identity ("linear") activation
method. -/
inductive Operation where
  | NONE
  | ADD
  | MULT
  | SUB
  | DIV
  | POW
  | MATMUL
  | SUM
  | LOG
  | STACK
  | TANH
  | SIGMOID
  | RELU
  | LIN
deriving DecidableEq

/-- Modelled from the spec: the error taxonomy of the engine
(`tinytorch/engine.py`, absent from the visible sources).  A shape error
reports operands that are not broadcast-compatible (or not stackable); a
value error reports a shape-compatible but semantically disallowed
combination, e.g. a rank-0 operand of `@`. -/
inductive TensorError where
  | shapeError
  | valueError
deriving DecidableEq

/-- Modelled from the spec: a value of the dense array backend — a shape
(list of dimension sizes, row-major) together with the flat list of the
entries.  A well-formed array has `data.length = shape.prod`; the claims
that need this carry it as a hypothesis. -/
structure NDArray where
  shape : List Nat
  data : List Int
deriving DecidableEq

/-- All multi-indices of a shape, enumerated in row-major order (the
order in which the flat `data` of an `NDArray` stores the entries). -/
def indicesOf : List Nat → List (List Nat)
  | [] => [[]]
  | n :: rest => (List.range n).flatMap (fun i => (indicesOf rest).map (fun idx => i :: idx))

/-- Row-major flat position of a multi-index inside a shape. -/
def flatIndex : List Nat → List Nat → Nat
  | _ :: srest, i :: irest => i * srest.prod + flatIndex srest irest
  | _, _ => 0

/-- Entry of an array at a multi-index (0 outside the bounds). -/
def NDArray.getAt (a : NDArray) (idx : List Nat) : Int :=
  a.data.getD (flatIndex a.shape idx) 0

/-- Pad a shape on the left with 1s up to rank `r` (numpy broadcasting
aligns trailing dimensions). -/
def padShape (r : Nat) (s : List Nat) : List Nat :=
  List.replicate (r - s.length) 1 ++ s

/-- Dimension-wise compatibility of two already length-aligned shapes:
equal, or one of them is 1. -/
def compatDims : List Nat → List Nat → Bool
  | [], [] => true
  | a :: as, b :: bs => (a == b || a == 1 || b == 1) && compatDims as bs
  | _, _ => false

/-- Modelled from the spec: numpy broadcast compatibility of two shapes
(the array backend's broadcasting rule). -/
def broadcastable (s t : List Nat) : Bool :=
  compatDims (padShape (max s.length t.length) s) (padShape (max s.length t.length) t)

/-- Modelled from the spec: the shape numpy broadcasting produces from
two compatible shapes. -/
def broadcastShape (s t : List Nat) : List Nat :=
  List.zipWith max (padShape (max s.length t.length) s) (padShape (max s.length t.length) t)

/-- Project a multi-index of the broadcast result shape down to a
multi-index of an operand shape `s`: drop the extra leading axes and
read position 0 along every axis the operand holds with size 1. -/
def projectIdx (s : List Nat) (idx : List Nat) : List Nat :=
  List.zipWith (fun d i => if d = 1 then 0 else i) s (idx.drop (idx.length - s.length))

/-- Modelled from the spec: the array backend's broadcasting elementwise
combination of two arrays; a shape error when the shapes are not
broadcast-compatible. -/
def NDArray.zipElem (f : Int → Int → Int) (a b : NDArray) : Except TensorError NDArray :=
  if broadcastable a.shape b.shape then
    .ok ⟨broadcastShape a.shape b.shape,
         (indicesOf (broadcastShape a.shape b.shape)).map
           (fun idx => f (a.getAt (projectIdx a.shape idx)) (b.getAt (projectIdx b.shape idx)))⟩
  else .error .shapeError

/-- Modelled from the spec: the array backend's full reduction — the sum
of every entry, a rank-0 array. -/
def NDArray.sumAll (a : NDArray) : NDArray :=
  ⟨[], [a.data.sum]⟩

/-- Modelled from the spec: the array backend's reduction along one axis
`k` (no keep-dims): the axis is removed from the shape and each entry of
the result sums the source entries over that axis. -/
def NDArray.sumAxis (a : NDArray) (k : Nat) : NDArray :=
  ⟨a.shape.eraseIdx k,
   (indicesOf (a.shape.eraseIdx k)).map
     (fun j => ((List.range (a.shape.getD k 0)).map
       (fun i => a.getAt (List.insertIdx k i j))).sum)⟩

/-- Insert into a descending-sorted list of axis positions. -/
def insertDesc (i : Nat) : List Nat → List Nat
  | [] => [i]
  | j :: rest => if j ≤ i then i :: j :: rest else j :: insertDesc i rest

/-- Sort axis positions in decreasing order. -/
def sortDesc (l : List Nat) : List Nat :=
  l.foldr insertDesc []

/-- Modelled from the spec: the array backend's reduction over a set of
axes (numpy `sum` with a tuple `axis`).  The axes are reduced one at a
time from the highest position down, so that the positions of the axes
still to be reduced are unaffected by the axes already removed. -/
def NDArray.sumAxes (a : NDArray) (axes : List Nat) : NDArray :=
  (sortDesc axes).foldl NDArray.sumAxis a

/-- Matrix product of a `[n, m]` array with an `[m, p]` array. -/
def NDArray.mm (a b : NDArray) (n m p : Nat) : NDArray :=
  ⟨[n, p],
   (List.range n).flatMap (fun i => (List.range p).map (fun j =>
     ((List.range m).map (fun k => a.getAt [i, k] * b.getAt [k, j])).sum))⟩

/-- Matrix-vector product of a `[n, m]` array with an `[m]` array. -/
def NDArray.mv (a b : NDArray) (n m : Nat) : NDArray :=
  ⟨[n],
   (List.range n).map (fun i =>
     ((List.range m).map (fun k => a.getAt [i, k] * b.getAt [k])).sum)⟩

/-- Scalar dot product of two `[n]` arrays; the result has shape `()`. -/
def NDArray.dotv (a b : NDArray) (n : Nat) : NDArray :=
  ⟨[], [((List.range n).map (fun k => a.getAt [k] * b.getAt [k])).sum]⟩

/-- Modelled from the spec: the array backend's stacking of a sequence of
equal-shape arrays along a new axis inserted at position `axis`; entry at
a multi-index of the result reads the input selected by the coordinate
along the new axis, at the remaining coordinates. -/
def NDArray.stackArr (ds : List NDArray) (axis : Nat) : NDArray :=
  ⟨(ds.headD ⟨[], []⟩).shape.insertIdx axis ds.length,
   (indicesOf ((ds.headD ⟨[], []⟩).shape.insertIdx axis ds.length)).map
     (fun idx => (ds.getD (idx.getD axis 0) ⟨[], []⟩).getAt (idx.eraseIdx axis))⟩

/-- Modelled from the spec: a tensor — an array `data` wrapped together
with the provenance of the node: the tag `op` of the operation that
produced it and the set `children` of the (ids of the) operand tensors.
`tid` models Python object identity, on which `children` is keyed;
`label` is the optional purely descriptive user string. -/
structure Tensor where
  tid : Nat
  data : NDArray
  op : Operation
  children : Finset Nat
  label : Option String
deriving DecidableEq

/-- Shape of a tensor, derived from its array. -/
def Tensor.shape (t : Tensor) : List Nat :=
  t.data.shape

/-- Modelled from the spec: the constructor `Tensor(data, label=None)` —
a leaf node: `op = NONE`, empty `children`. -/
def Tensor.ofArray (tid : Nat) (d : NDArray) (label : Option String) : Tensor :=
  ⟨tid, d, .NONE, ∅, label⟩

/-- Modelled from the spec: tensor addition `a + b` — broadcasting
elementwise sum, tag `ADD`, children the two operands. -/
def Tensor.add (a b : Tensor) : Except TensorError Tensor :=
  match NDArray.zipElem (· + ·) a.data b.data with
  | .ok d => .ok ⟨0, d, .ADD, {a.tid, b.tid}, none⟩
  | .error e => .error e

/-- Modelled from the spec: tensor multiplication `a * b` — broadcasting
elementwise product, tag `MULT`, children the two operands. -/
def Tensor.mul (a b : Tensor) : Except TensorError Tensor :=
  match NDArray.zipElem (· * ·) a.data b.data with
  | .ok d => .ok ⟨0, d, .MULT, {a.tid, b.tid}, none⟩
  | .error e => .error e

/-- Modelled from the spec: tensor subtraction `a - b` — broadcasting
elementwise difference, tag `SUB`, children the two operands. -/
def Tensor.sub (a b : Tensor) : Except TensorError Tensor :=
  match NDArray.zipElem (· - ·) a.data b.data with
  | .ok d => .ok ⟨0, d, .SUB, {a.tid, b.tid}, none⟩
  | .error e => .error e

/-- Modelled from the spec: tensor-scalar addition `t + c` (and its
reflected form `c + t`): the scalar is broadcast over the tensor and does
not become a graph leaf — the only child is the tensor operand. -/
def Tensor.addScalar (t : Tensor) (c : Int) : Tensor :=
  ⟨0, ⟨t.data.shape, t.data.data.map (fun x => x + c)⟩, .ADD, {t.tid}, none⟩

/-- Modelled from the spec: tensor-scalar multiplication `t * c` (and its
reflected form `c * t`): the scalar is broadcast over the tensor and does
not become a graph leaf — the only child is the tensor operand. -/
def Tensor.mulScalar (t : Tensor) (c : Int) : Tensor :=
  ⟨0, ⟨t.data.shape, t.data.data.map (fun x => x * c)⟩, .MULT, {t.tid}, none⟩

/-- Modelled from the spec: unary negation `-t` is defined as the
multiplication of `t` by the scalar constant -1 and routes through the
same MULT machinery — there is no separate NEG tag. -/
def Tensor.neg (t : Tensor) : Tensor :=
  t.mulScalar (-1)

/-- Modelled from the spec: elementwise power `t ** n` with an integer
exponent, tag `POW`, single child. -/
def Tensor.pow (t : Tensor) (n : Nat) : Tensor :=
  ⟨0, ⟨t.data.shape, t.data.data.map (fun x => x ^ n)⟩, .POW, {t.tid}, none⟩

/-- Modelled from the spec: `t.sum(axis=None)` — the full reduction when
`axis` is omitted, else the reduction over the given axis or tuple of
axes (a single integer axis is the singleton list); tag `SUM`, single
child. -/
def Tensor.sum (t : Tensor) (axis : Option (List Nat)) : Tensor :=
  match axis with
  | none => ⟨0, t.data.sumAll, .SUM, {t.tid}, none⟩
  | some axes => ⟨0, t.data.sumAxes axes, .SUM, {t.tid}, none⟩

/-- Modelled from the spec: the matrix-multiplication operator `a @ b`.
A rank-0 (scalar) operand on either side is rejected with a value error
before any node is constructed; 2-D x 2-D is the matrix product, 2-D x
1-D the matrix-vector product, 1-D x 1-D the scalar dot product (result
shape `()`); mismatched inner dimensions are a shape error.  Tag
`MATMUL`, children the two operands. -/
def Tensor.matmul (a b : Tensor) : Except TensorError Tensor :=
  if a.data.shape = [] ∨ b.data.shape = [] then .error .valueError
  else
    match a.data.shape, b.data.shape with
    | [n, m], [m2, p] =>
      if m = m2 then .ok ⟨0, NDArray.mm a.data b.data n m p, .MATMUL, {a.tid, b.tid}, none⟩
      else .error .shapeError
    | [n, m], [m2] =>
      if m = m2 then .ok ⟨0, NDArray.mv a.data b.data n m, .MATMUL, {a.tid, b.tid}, none⟩
      else .error .shapeError
    | [n], [m] =>
      if n = m then .ok ⟨0, NDArray.dotv a.data b.data n, .MATMUL, {a.tid, b.tid}, none⟩
      else .error .shapeError
    | _, _ => .error .shapeError

/-- Modelled from the spec: the class-level operation
`Tensor.stack(tensors, axis=0)` — joins a sequence of equal-shape tensors
into one higher-rank tensor along the given axis; tag `STACK`, children
the set of all input tensors; a shape error when the shapes differ or
the sequence is empty. -/
def Tensor.stack (ts : List Tensor) (axis : Nat) : Except TensorError Tensor :=
  match ts with
  | [] => .error .shapeError
  | t0 :: rest =>
    if rest.all (fun t => t.data.shape == t0.data.shape) then
      .ok ⟨0, NDArray.stackArr ((t0 :: rest).map Tensor.data) axis, .STACK,
           ((t0 :: rest).map Tensor.tid).toFinset, none⟩
    else .error .shapeError

/-- Options for activation functions (`tinytorch/nn.py`). -/
inductive Activation where
  | TANH
  | SIGMOID
  | RELU
  | LIN
deriving DecidableEq

/-- Modelled from the spec: the forward functions of the transcendental
activations, which the engine delegates to the array backend and which
have no exact counterpart on the modelled carrier; kept abstract. -/
structure ActSem where
  tanhF : Int → Int
  sigmoidF : Int → Int

/-- Modelled from the spec: the activation methods of a tensor
(`t.tanh()`, `t.sigmoid()`, `t.relu()`, `t.lin()`), dispatched by name in
`Neuron.__call__`: unary ops with a dedicated tag and a single child;
relu is elementwise `max 0 x`, the identity ("linear") activation leaves
the data unchanged. -/
def Tensor.applyAct (sem : ActSem) (t : Tensor) : Activation → Tensor
  | .TANH => ⟨0, ⟨t.data.shape, t.data.data.map sem.tanhF⟩, .TANH, {t.tid}, none⟩
  | .SIGMOID => ⟨0, ⟨t.data.shape, t.data.data.map sem.sigmoidF⟩, .SIGMOID, {t.tid}, none⟩
  | .RELU => ⟨0, ⟨t.data.shape, t.data.data.map (fun x => max 0 x)⟩, .RELU, {t.tid}, none⟩
  | .LIN => ⟨0, t.data, .LIN, {t.tid}, none⟩

/-- Modelled from the spec: the elementwise float division and natural
logarithm of the array backend, which have no exact counterpart on the
modelled carrier; kept abstract, like the transcendental activations of
`ActSem`. -/
structure FloatSem where
  divF : Int → Int → Int
  logF : Int → Int

/-- Modelled from the spec: tensor division `a / b` — broadcasting
elementwise quotient (the backend's float division, abstracted), tag
`DIV`, children the two operands. -/
def Tensor.div (fsem : FloatSem) (a b : Tensor) : Except TensorError Tensor :=
  match NDArray.zipElem fsem.divF a.data b.data with
  | .ok d => .ok ⟨0, d, .DIV, {a.tid, b.tid}, none⟩
  | .error e => .error e

/-- Modelled from the spec: tensor-scalar subtraction `t - c`: the
scalar is broadcast over the tensor and does not become a graph leaf —
the only child is the tensor operand. -/
def Tensor.subScalar (t : Tensor) (c : Int) : Tensor :=
  ⟨0, ⟨t.data.shape, t.data.data.map (fun x => x - c)⟩, .SUB, {t.tid}, none⟩

/-- Modelled from the spec: the reflected scalar-tensor subtraction
`c - t`; the scalar does not become a graph leaf. -/
def Tensor.rsubScalar (c : Int) (t : Tensor) : Tensor :=
  ⟨0, ⟨t.data.shape, t.data.data.map (fun x => c - x)⟩, .SUB, {t.tid}, none⟩

/-- Modelled from the spec: tensor-scalar division `t / c` (backend
float division abstracted); the scalar does not become a graph leaf. -/
def Tensor.divScalar (fsem : FloatSem) (t : Tensor) (c : Int) : Tensor :=
  ⟨0, ⟨t.data.shape, t.data.data.map (fun x => fsem.divF x c)⟩, .DIV, {t.tid}, none⟩

/-- Modelled from the spec: the reflected scalar-tensor division
`c / t` (backend float division abstracted); the scalar does not become
a graph leaf. -/
def Tensor.rdivScalar (fsem : FloatSem) (c : Int) (t : Tensor) : Tensor :=
  ⟨0, ⟨t.data.shape, t.data.data.map (fun x => fsem.divF c x)⟩, .DIV, {t.tid}, none⟩

/-- Modelled from the spec: `t.log()` — the elementwise natural
logarithm (the backend's float logarithm, abstracted; its value on
non-positive input is the caller's responsibility), tag `LOG`, single
child. -/
def Tensor.log (fsem : FloatSem) (t : Tensor) : Tensor :=
  ⟨0, ⟨t.data.shape, t.data.data.map fsem.logF⟩, .LOG, {t.tid}, none⟩

/-- A tensor that is the direct result of one of the operator overloads
of the engine (as opposed to a user-constructed leaf). -/
inductive Derived : Tensor → Prop where
  | add : ∀ a b r, Tensor.add a b = .ok r → Derived r
  | mul : ∀ a b r, Tensor.mul a b = .ok r → Derived r
  | sub : ∀ a b r, Tensor.sub a b = .ok r → Derived r
  | div : ∀ fsem a b r, Tensor.div fsem a b = .ok r → Derived r
  | addScalar : ∀ t c, Derived (Tensor.addScalar t c)
  | mulScalar : ∀ t c, Derived (Tensor.mulScalar t c)
  | subScalar : ∀ t c, Derived (Tensor.subScalar t c)
  | rsubScalar : ∀ c t, Derived (Tensor.rsubScalar c t)
  | divScalar : ∀ fsem t c, Derived (Tensor.divScalar fsem t c)
  | rdivScalar : ∀ fsem c t, Derived (Tensor.rdivScalar fsem c t)
  | pow : ∀ t n, Derived (Tensor.pow t n)
  | log : ∀ fsem t, Derived (Tensor.log fsem t)
  | sum : ∀ t ax, Derived (Tensor.sum t ax)
  | matmul : ∀ a b r, Tensor.matmul a b = .ok r → Derived r
  | stack : ∀ ts ax r, Tensor.stack ts ax = .ok r → Derived r
  | act : ∀ sem t a, Derived (Tensor.applyAct sem t a)

/-- A tensor the engine's public surface can produce: a user-constructed
leaf, or the result of an operator. -/
inductive Built : Tensor → Prop where
  | leaf : ∀ tid d lbl, Built (Tensor.ofArray tid d lbl)
  | derived : ∀ t, Derived t → Built t

/-- Python `repr` of a shape tuple: `()`, `(2,)`, `(2, 3)`, ... -/
def shapeRepr : List Nat → String
  | [] => "()"
  | [n] => "(" ++ toString n ++ ",)"
  | ns => "(" ++ String.intercalate ", " (ns.map toString) ++ ")"

/-- Modelled from the spec: the string representation of a tensor,
`Tensor(shape=<shape>)`. -/
def Tensor.reprStr (t : Tensor) : String :=
  "Tensor(shape=" ++ shapeRepr t.data.shape ++ ")"

/-- Modelled from the spec: `str` of a tensor is identical to its
detailed representation. -/
def Tensor.toStr (t : Tensor) : String :=
  t.reprStr

/-- Square of the Xavier/Glorot scale of `Neuron.__init__`
(`tinytorch/nn.py`): the source draws the weights with standard
deviation `sqrt(2 / (n_input + 1))`; the square root is not rational, so
the model carries the variance `2 / (n_input + 1)`. -/
def Neuron.variance (n_input : Nat) : ℚ :=
  2 / (n_input + 1)

/-- A neuron (`tinytorch/nn.py`): its label, input arity, activation and
the two parameter tensors. -/
structure Neuron where
  label : Option String
  n_input : Nat
  activation : Activation
  w : Tensor
  b : Tensor
deriving DecidableEq

/-- Translated from `Neuron.__init__` (`tinytorch/nn.py`): the weight
tensor has shape `(1, n_input)` and is drawn entry by entry from the
normal sampler at the input-size-dependent variance
`Neuron.variance n_input` (`sampler v i` models the `i`-th value of
`np.random.normal(0, sqrt(v), size=(1, n_input))`); the bias tensor has
shape `(1,)` and is initialized to zero.  `wtid`/`btid` model the object
identities of the two fresh leaf tensors. -/
def Neuron.init (n_input : Nat) (activation : Activation) (label : Option String)
    (sampler : ℚ → Nat → Int) (wtid btid : Nat) : Neuron :=
  ⟨label, n_input, activation,
   Tensor.ofArray wtid
     ⟨[1, n_input], (List.range n_input).map (sampler (Neuron.variance n_input))⟩ (some "w"),
   Tensor.ofArray btid ⟨[1], [0]⟩ (some "b")⟩

/-- Translated from `Neuron.parameters` (`tinytorch/nn.py`). -/
def Neuron.parameters (nr : Neuron) : List Tensor :=
  [nr.w, nr.b]

/-- Translated from `Neuron.__call__` (`tinytorch/nn.py`):
`(w * x).sum(axis=1) + b` passed through the neuron's activation. -/
def Neuron.call (sem : ActSem) (nr : Neuron) (x : Tensor) : Except TensorError Tensor := do
  let p ← Tensor.mul nr.w x
  let a ← Tensor.add (p.sum (some [1])) nr.b
  pure (Tensor.applyAct sem a nr.activation)

/-- A layer of neurons (`tinytorch/nn.py`). -/
structure Layer where
  label : Option String
  n_input : Nat
  n_neurons : Nat
  activation : Activation
  neurons : List Neuron

/-- Translated from `Layer.__init__` (`tinytorch/nn.py`): `n_neurons`
neurons of the given arity and activation, labelled `neuron_i`. -/
def Layer.init (n_input n_neurons : Nat) (activation : Activation) (label : Option String)
    (sampler : ℚ → Nat → Int) : Layer :=
  ⟨label, n_input, n_neurons, activation,
   (List.range n_neurons).map
     (fun i => Neuron.init n_input activation (some ("neuron_" ++ toString i)) sampler 0 0)⟩

/-- Translated from `Layer.__call__` (`tinytorch/nn.py`): the neurons'
outputs stacked along axis 1. -/
def Layer.call (sem : ActSem) (l : Layer) (x : Tensor) : Except TensorError Tensor := do
  let outs ← l.neurons.mapM (fun nr => Neuron.call sem nr x)
  Tensor.stack outs 1

/-- A multi-layer perceptron (`tinytorch/nn.py`). -/
structure MLP where
  label : Option String
  layers : List Layer

/-- Pointwise combination of three lists, cut at the shortest (Python
`zip` over three sequences). -/
def zip3With (f : α → β → γ → δ) : List α → List β → List γ → List δ
  | a :: as, b :: bs, c :: cs => f a b c :: zip3With f as bs cs
  | _, _, _ => []

/-- Translated from `MLP.__init__` (`tinytorch/nn.py`): consecutive
dimension pairs `zip(dims[:-1], dims[1:])` with the activations
`activations[1:]` give the layers; `dims = [n_input] + [n for n, _ in
layers]` and `activations = [lin] + [act for _, act in layers]`. -/
def MLP.init (n_input : Nat) (layers : List (Nat × Activation)) (label : Option String)
    (sampler : ℚ → Nat → Int) : MLP :=
  ⟨label,
   zip3With (fun nIn nOut act => Layer.init nIn nOut act none sampler)
     (n_input :: layers.map Prod.fst).dropLast
     (n_input :: layers.map Prod.fst).tail
     (Activation.LIN :: layers.map Prod.snd).tail⟩

/-- Translated from `MLP.__call__` (`tinytorch/nn.py`): left-to-right
function application of the layers to the input. -/
def MLP.call (sem : ActSem) (m : MLP) (x : Tensor) : Except TensorError Tensor :=
  m.layers.foldlM (fun xi l => Layer.call sem l xi) x

/-! ## Supporting lemmas about shapes, enumeration and broadcasting -/

theorem compatDims_self (s : List Nat) : compatDims s s = true := by
  induction s with
  | nil => rfl
  | cons a as ih => simp [compatDims, ih]

theorem padShape_self (s : List Nat) : padShape s.length s = s := by
  simp [padShape]

theorem broadcastable_self (s : List Nat) : broadcastable s s = true := by
  simp [broadcastable, padShape_self, compatDims_self]

theorem broadcastShape_self (s : List Nat) : broadcastShape s s = s := by
  simp only [broadcastable, broadcastShape, Nat.max_self, padShape_self]
  rw [List.zipWith_same]
  simp

theorem compatDims_ones (s : List Nat) : compatDims (List.replicate s.length 1) s = true := by
  induction s with
  | nil => rfl
  | cons a as ih => simp [List.replicate, compatDims, ih]

theorem broadcastable_nil_left (s : List Nat) : broadcastable [] s = true := by
  have h1 : padShape (max ([] : List Nat).length s.length) [] = List.replicate s.length 1 := by
    simp [padShape]
  have h2 : padShape (max ([] : List Nat).length s.length) s = s := by
    simp [padShape]
  rw [broadcastable, h1, h2]
  exact compatDims_ones s

theorem range_flatMap_range (n P : Nat) :
    (List.range n).flatMap (fun i => (List.range P).map (fun q => i * P + q)) =
      List.range (n * P) := by
  induction n with
  | zero => simp
  | succ k ih =>
    rw [List.range_succ, List.flatMap_append, ih, Nat.succ_mul, List.range_add]
    simp

theorem indicesOf_map_flatIndex (s : List Nat) :
    (indicesOf s).map (flatIndex s) = List.range s.prod := by
  induction s with
  | nil =>
    show [flatIndex [] []] = List.range 1
    rw [List.range_succ]
    rfl
  | cons n s' ih =>
    rw [indicesOf, List.map_flatMap]
    have hinner : ∀ i, ((indicesOf s').map (fun idx => i :: idx)).map (flatIndex (n :: s')) =
        (List.range s'.prod).map (fun q => i * s'.prod + q) := by
      intro i
      rw [List.map_map, ← ih, List.map_map]
      rfl
    calc (List.range n).flatMap (fun i => ((indicesOf s').map (fun idx => i :: idx)).map (flatIndex (n :: s')))
        = (List.range n).flatMap (fun i => (List.range s'.prod).map (fun q => i * s'.prod + q)) := by
          exact List.flatMap_congr (fun i _ => hinner i)
      _ = List.range (n * s'.prod) := range_flatMap_range n s'.prod
      _ = List.range (n :: s').prod := by rw [List.prod_cons]

theorem getD_range_map (l : List Int) :
    (List.range l.length).map (fun i => l.getD i 0) = l := by
  induction l with
  | nil => simp
  | cons a as ih =>
    rw [List.length_cons, List.range_succ_eq_map, List.map_cons, List.map_map]
    simp only [List.getD_cons_zero, Function.comp_def, List.getD_cons_succ]
    rw [ih]

theorem map_getAt_indicesOf (a : NDArray) (h : a.data.length = a.shape.prod) :
    (indicesOf a.shape).map a.getAt = a.data := by
  have h1 : (indicesOf a.shape).map a.getAt =
      ((indicesOf a.shape).map (flatIndex a.shape)).map (fun i => a.data.getD i 0) := by
    rw [List.map_map]
    rfl
  rw [h1, indicesOf_map_flatIndex, ← h, getD_range_map]

theorem length_of_mem_indicesOf (s : List Nat) (idx : List Nat) (h : idx ∈ indicesOf s) :
    idx.length = s.length := by
  induction s generalizing idx with
  | nil => simp [indicesOf] at h; simp [h]
  | cons n s' ih =>
    simp only [indicesOf, List.mem_flatMap, List.mem_map, List.mem_range] at h
    obtain ⟨i, _, j, hj, rfl⟩ := h
    simp [ih j hj]

theorem projectIdx_of_mem (s : List Nat) (idx : List Nat) (h : idx ∈ indicesOf s) :
    projectIdx s idx = idx := by
  induction s generalizing idx with
  | nil =>
    simp [indicesOf] at h
    simp [projectIdx, h]
  | cons n s' ih =>
    simp only [indicesOf, List.mem_flatMap, List.mem_map, List.mem_range] at h
    obtain ⟨i, hi, j, hj, rfl⟩ := h
    have hlen : (i :: j).length = (n :: s').length := by
      simp [length_of_mem_indicesOf s' j hj]
    rw [projectIdx, hlen, Nat.sub_self, List.drop_zero, List.zipWith_cons_cons]
    have hgi : (if n = 1 then 0 else i) = i := by
      by_cases hn : n = 1
      · have : i = 0 := by omega
        simp [hn, this]
      · simp [hn]
    rw [hgi]
    have := ih j hj
    rw [projectIdx, length_of_mem_indicesOf s' j hj, Nat.sub_self, List.drop_zero] at this
    rw [this]

theorem zipWith_map_same (f : Int → Int → Int) (g h : List Nat → Int) (l : List (List Nat)) :
    l.map (fun x => f (g x) (h x)) = List.zipWith f (l.map g) (l.map h) := by
  rw [List.zipWith_map, List.zipWith_same]

theorem zipElem_same_shape (f : Int → Int → Int) (a b : NDArray) (hsh : a.shape = b.shape)
    (ha : a.data.length = a.shape.prod) (hb : b.data.length = b.shape.prod) :
    NDArray.zipElem f a b = .ok ⟨a.shape, List.zipWith f a.data b.data⟩ := by
  have hdata : (indicesOf a.shape).map
      (fun idx => f (a.getAt (projectIdx a.shape idx)) (b.getAt (projectIdx a.shape idx))) =
      List.zipWith f a.data b.data := by
    have hmap : (indicesOf a.shape).map
        (fun idx => f (a.getAt (projectIdx a.shape idx)) (b.getAt (projectIdx a.shape idx))) =
        (indicesOf a.shape).map (fun idx => f (a.getAt idx) (b.getAt idx)) := by
      refine List.map_congr_left (fun idx hidx => ?_)
      rw [projectIdx_of_mem a.shape idx hidx]
    have hbb : (indicesOf a.shape).map b.getAt = b.data := by
      have hb2 := map_getAt_indicesOf b hb
      rwa [← hsh] at hb2
    rw [hmap, zipWith_map_same, map_getAt_indicesOf a ha, hbb]
  have hcond : broadcastable a.shape b.shape = true := by
    rw [← hsh]; exact broadcastable_self a.shape
  rw [NDArray.zipElem, if_pos hcond]
  rw [show b.shape = a.shape from hsh.symm, broadcastShape_self]
  exact congrArg (fun d => Except.ok (NDArray.mk a.shape d)) hdata

theorem add_ok_fields (a b r : Tensor) (h : Tensor.add a b = .ok r) :
    r.op = .ADD ∧ r.children = {a.tid, b.tid} := by
  unfold Tensor.add at h
  split at h
  · cases h
    exact ⟨rfl, rfl⟩
  · cases h

theorem mul_ok_fields (a b r : Tensor) (h : Tensor.mul a b = .ok r) :
    r.op = .MULT ∧ r.children = {a.tid, b.tid} := by
  unfold Tensor.mul at h
  split at h
  · cases h
    exact ⟨rfl, rfl⟩
  · cases h

theorem sub_ok_fields (a b r : Tensor) (h : Tensor.sub a b = .ok r) :
    r.op = .SUB ∧ r.children = {a.tid, b.tid} := by
  unfold Tensor.sub at h
  split at h
  · cases h
    exact ⟨rfl, rfl⟩
  · cases h

theorem div_ok_fields (fsem : FloatSem) (a b r : Tensor)
    (h : Tensor.div fsem a b = .ok r) :
    r.op = .DIV ∧ r.children = {a.tid, b.tid} := by
  unfold Tensor.div at h
  split at h
  · cases h
    exact ⟨rfl, rfl⟩
  · cases h

theorem matmul_ok_fields (a b r : Tensor) (h : Tensor.matmul a b = .ok r) :
    r.op = .MATMUL ∧ r.children = {a.tid, b.tid} := by
  unfold Tensor.matmul at h
  split at h
  · cases h
  · split at h <;> first
      | (split at h <;> first
          | (cases h; exact ⟨rfl, rfl⟩)
          | cases h)
      | cases h

theorem stack_ok_fields (ts : List Tensor) (ax : Nat) (r : Tensor)
    (h : Tensor.stack ts ax = .ok r) :
    r.op = .STACK ∧ r.children ≠ ∅ := by
  unfold Tensor.stack at h
  split at h
  · cases h
  · rename_i t0 rest
    split at h
    · cases h
      refine ⟨rfl, ?_⟩
      show ((t0 :: rest).map Tensor.tid).toFinset ≠ ∅
      rw [List.map_cons, List.toFinset_cons]
      exact Finset.insert_ne_empty _ _
    · cases h

theorem derived_op_children (t : Tensor) (h : Derived t) :
    t.op ≠ .NONE ∧ t.children ≠ ∅ := by
  cases h with
  | add a b r hr =>
    obtain ⟨h1, h2⟩ := add_ok_fields a b t hr
    rw [h1, h2]
    exact ⟨by simp, Finset.insert_ne_empty _ _⟩
  | mul a b r hr =>
    obtain ⟨h1, h2⟩ := mul_ok_fields a b t hr
    rw [h1, h2]
    exact ⟨by simp, Finset.insert_ne_empty _ _⟩
  | sub a b r hr =>
    obtain ⟨h1, h2⟩ := sub_ok_fields a b t hr
    rw [h1, h2]
    exact ⟨by simp, Finset.insert_ne_empty _ _⟩
  | div fsem a b r hr =>
    obtain ⟨h1, h2⟩ := div_ok_fields fsem a b t hr
    rw [h1, h2]
    exact ⟨by simp, Finset.insert_ne_empty _ _⟩
  | addScalar t c => exact ⟨by simp [Tensor.addScalar], Finset.singleton_ne_empty _⟩
  | mulScalar t c => exact ⟨by simp [Tensor.mulScalar], Finset.singleton_ne_empty _⟩
  | subScalar t c => exact ⟨by simp [Tensor.subScalar], Finset.singleton_ne_empty _⟩
  | rsubScalar c t => exact ⟨by simp [Tensor.rsubScalar], Finset.singleton_ne_empty _⟩
  | divScalar fsem t c => exact ⟨by simp [Tensor.divScalar], Finset.singleton_ne_empty _⟩
  | rdivScalar fsem c t => exact ⟨by simp [Tensor.rdivScalar], Finset.singleton_ne_empty _⟩
  | pow t n => exact ⟨by simp [Tensor.pow], Finset.singleton_ne_empty _⟩
  | log fsem t => exact ⟨by simp [Tensor.log], Finset.singleton_ne_empty _⟩
  | sum t ax =>
    cases ax with
    | none => exact ⟨by simp [Tensor.sum], Finset.singleton_ne_empty _⟩
    | some axes => exact ⟨by simp [Tensor.sum], Finset.singleton_ne_empty _⟩
  | matmul a b r hr =>
    obtain ⟨h1, h2⟩ := matmul_ok_fields a b t hr
    rw [h1, h2]
    exact ⟨by simp, Finset.insert_ne_empty _ _⟩
  | stack ts ax r hr =>
    obtain ⟨h1, h2⟩ := stack_ok_fields ts ax t hr
    rw [h1]
    exact ⟨by simp, h2⟩
  | act sem t a =>
    cases a with
    | TANH => exact ⟨by simp [Tensor.applyAct], Finset.singleton_ne_empty _⟩
    | SIGMOID => exact ⟨by simp [Tensor.applyAct], Finset.singleton_ne_empty _⟩
    | RELU => exact ⟨by simp [Tensor.applyAct], Finset.singleton_ne_empty _⟩
    | LIN => exact ⟨by simp [Tensor.applyAct], Finset.singleton_ne_empty _⟩

theorem shapeRepr_eval :
    shapeRepr [] = "()" ∧ shapeRepr [5] = "(5,)" ∧ shapeRepr [2, 3] = "(2, 3)" := by
  refine ⟨rfl, ?_, ?_⟩ <;> decide

/-! ## The claimed properties -/

/-- C1: for every pair of same-shape (well-formed) tensors `a` and `b`,
`a + b` yields a tensor whose data is the elementwise sum of the two data
arrays, whose op tag is `ADD` and whose children set is exactly the pair
of the two operands; `a * b` behaves identically with tag `MULT`; and
both operations commute — `b + a` (resp. `b * a`) is the very same node,
so it has equal data and an equal child-set. -/
theorem tensor_add_mul_spec (a b : Tensor) (hsh : a.shape = b.shape)
    (ha : a.data.data.length = a.shape.prod) (hb : b.data.data.length = b.shape.prod) :
    Tensor.add a b =
      .ok ⟨0, ⟨a.shape, List.zipWith (· + ·) a.data.data b.data.data⟩, .ADD,
           {a.tid, b.tid}, none⟩ ∧
    Tensor.mul a b =
      .ok ⟨0, ⟨a.shape, List.zipWith (· * ·) a.data.data b.data.data⟩, .MULT,
           {a.tid, b.tid}, none⟩ ∧
    Tensor.add b a =
      .ok ⟨0, ⟨a.shape, List.zipWith (· + ·) a.data.data b.data.data⟩, .ADD,
           {a.tid, b.tid}, none⟩ ∧
    Tensor.mul b a =
      .ok ⟨0, ⟨a.shape, List.zipWith (· * ·) a.data.data b.data.data⟩, .MULT,
           {a.tid, b.tid}, none⟩ := by
  simp only [Tensor.shape] at hsh ha hb ⊢
  have hadd := zipElem_same_shape (· + ·) a.data b.data hsh ha hb
  have hmul := zipElem_same_shape (· * ·) a.data b.data hsh ha hb
  have hadd2 := zipElem_same_shape (· + ·) b.data a.data hsh.symm hb ha
  have hmul2 := zipElem_same_shape (· * ·) b.data a.data hsh.symm hb ha
  refine ⟨?_, ?_, ?_, ?_⟩
  · unfold Tensor.add
    rw [hadd]
  · unfold Tensor.mul
    rw [hmul]
  · unfold Tensor.add
    rw [hadd2]
    rw [show b.data.shape = a.data.shape from hsh.symm,
        List.zipWith_comm_of_comm (· + ·) Int.add_comm b.data.data a.data.data,
        Finset.pair_comm b.tid a.tid]
  · unfold Tensor.mul
    rw [hmul2]
    rw [show b.data.shape = a.data.shape from hsh.symm,
        List.zipWith_comm_of_comm (· * ·) Int.mul_comm b.data.data a.data.data,
        Finset.pair_comm b.tid a.tid]

/-- C1 witness: the property evaluated on the concrete tensors `[1, 2]`
and `[3, 4]`. -/
theorem tensor_add_mul_spec_wit :
    (Tensor.ofArray 1 ⟨[2], [1, 2]⟩ none).shape = (Tensor.ofArray 2 ⟨[2], [3, 4]⟩ none).shape ∧
    Tensor.add (Tensor.ofArray 1 ⟨[2], [1, 2]⟩ none) (Tensor.ofArray 2 ⟨[2], [3, 4]⟩ none) =
      .ok ⟨0, ⟨[2], [4, 6]⟩, .ADD, {1, 2}, none⟩ ∧
    Tensor.mul (Tensor.ofArray 1 ⟨[2], [1, 2]⟩ none) (Tensor.ofArray 2 ⟨[2], [3, 4]⟩ none) =
      .ok ⟨0, ⟨[2], [3, 8]⟩, .MULT, {1, 2}, none⟩ ∧
    Tensor.add (Tensor.ofArray 2 ⟨[2], [3, 4]⟩ none) (Tensor.ofArray 1 ⟨[2], [1, 2]⟩ none) =
      .ok ⟨0, ⟨[2], [4, 6]⟩, .ADD, {1, 2}, none⟩ := by
  have h := tensor_add_mul_spec (Tensor.ofArray 1 ⟨[2], [1, 2]⟩ none)
    (Tensor.ofArray 2 ⟨[2], [3, 4]⟩ none) (by decide) (by decide) (by decide)
  exact ⟨by decide, h.1, h.2.1, h.2.2.1⟩

/-- C2: `t.sum()` with no axis argument is the full reduction (the sum of
every entry, a rank-0 array); `t.sum(axis=0)` on a tensor of rank at
least 2 is the backend's reduction along axis 0; `t.sum(axis=(0, 2))` on
a tensor of rank at least 3 is the backend's multi-axis reduction, i.e.
axis 2 reduced and then axis 0 (no keep-dims); in every case the result
has op tag `SUM` and its children set is exactly the singleton of the
operand. -/
theorem tensor_sum_spec (t : Tensor) :
    Tensor.sum t none = ⟨0, ⟨[], [t.data.data.sum]⟩, .SUM, {t.tid}, none⟩ ∧
    (2 ≤ t.shape.length →
      Tensor.sum t (some [0]) = ⟨0, t.data.sumAxis 0, .SUM, {t.tid}, none⟩) ∧
    (3 ≤ t.shape.length →
      Tensor.sum t (some [0, 2]) = ⟨0, (t.data.sumAxis 2).sumAxis 0, .SUM, {t.tid}, none⟩) :=
  ⟨rfl, fun _ => rfl, fun _ => rfl⟩

/-- C2 witness: sums of the concrete rank-3 tensor with data
`[[[1, 2], [3, 4]], [[5, 6], [7, 8]]]`, checked against the values of
the backend reduction. -/
theorem tensor_sum_spec_wit :
    2 ≤ (Tensor.ofArray 5 ⟨[2, 2, 2], [1, 2, 3, 4, 5, 6, 7, 8]⟩ none).shape.length ∧
    3 ≤ (Tensor.ofArray 5 ⟨[2, 2, 2], [1, 2, 3, 4, 5, 6, 7, 8]⟩ none).shape.length ∧
    (Tensor.sum (Tensor.ofArray 5 ⟨[2, 2, 2], [1, 2, 3, 4, 5, 6, 7, 8]⟩ none) none).data =
      ⟨[], [36]⟩ ∧
    (Tensor.sum (Tensor.ofArray 5 ⟨[2, 2, 2], [1, 2, 3, 4, 5, 6, 7, 8]⟩ none) (some [0])).data =
      ⟨[2, 2], [6, 8, 10, 12]⟩ ∧
    (Tensor.sum (Tensor.ofArray 5 ⟨[2, 2, 2], [1, 2, 3, 4, 5, 6, 7, 8]⟩ none)
      (some [0, 2])).data = ⟨[2], [14, 22]⟩ := by
  have h := tensor_sum_spec (Tensor.ofArray 5 ⟨[2, 2, 2], [1, 2, 3, 4, 5, 6, 7, 8]⟩ none)
  refine ⟨by decide, by decide, ?_, ?_, ?_⟩
  · exact (congrArg Tensor.data h.1).trans (by decide)
  · exact (congrArg Tensor.data (h.2.1 (by decide))).trans (by decide)
  · exact (congrArg Tensor.data (h.2.2 (by decide))).trans (by decide)

/-- C5: for every tensor `t`, unary negation is multiplication by the
scalar constant -1 through the MULT machinery: `(-t).op = MULT` with `t`
as the only child, `(-t).data = (t * -1).data`, double negation restores
the data, and negating an all-zero tensor yields an all-zero tensor. -/
theorem tensor_neg_spec (t : Tensor) :
    (Tensor.neg t).op = .MULT ∧
    (Tensor.neg t).children = {t.tid} ∧
    (Tensor.neg t).data = (Tensor.mulScalar t (-1)).data ∧
    (Tensor.neg (Tensor.neg t)).data = t.data ∧
    ((∀ x ∈ t.data.data, x = 0) → ∀ x ∈ (Tensor.neg t).data.data, x = 0) := by
  refine ⟨rfl, rfl, rfl, ?_, ?_⟩
  · show (⟨t.data.shape, (t.data.data.map (fun x => x * -1)).map (fun x => x * -1)⟩ :
      NDArray) = t.data
    have hfun : ((fun x : Int => x * -1) ∘ (fun x : Int => x * -1)) = id :=
      funext fun x => by
        show (x * -1) * -1 = x
        ring
    rw [List.map_map, hfun, List.map_id]
  · intro hz x hx
    simp only [Tensor.neg, Tensor.mulScalar, List.mem_map] at hx
    obtain ⟨y, hy, rfl⟩ := hx
    rw [hz y hy]
    ring

/-- C5 witness: negation of the concrete tensors `[1, -2]` and `[0, 0]`:
op tag, child set, double negation, the evaluated data of the negation,
and the all-zero case. -/
theorem tensor_neg_spec_wit :
    (Tensor.neg (Tensor.ofArray 4 ⟨[2], [1, -2]⟩ none)).op = .MULT ∧
    (Tensor.neg (Tensor.ofArray 4 ⟨[2], [1, -2]⟩ none)).children = {4} ∧
    (Tensor.neg (Tensor.neg (Tensor.ofArray 4 ⟨[2], [1, -2]⟩ none))).data = ⟨[2], [1, -2]⟩ ∧
    (Tensor.neg (Tensor.ofArray 4 ⟨[2], [1, -2]⟩ none)).data.data = [-1, 2] ∧
    (∀ x ∈ (Tensor.neg (Tensor.ofArray 9 ⟨[2], [0, 0]⟩ none)).data.data, x = 0) := by
  have h := tensor_neg_spec (Tensor.ofArray 4 ⟨[2], [1, -2]⟩ none)
  have hz := tensor_neg_spec (Tensor.ofArray 9 ⟨[2], [0, 0]⟩ none)
  exact ⟨h.1, h.2.1, h.2.2.2.1, by decide, hz.2.2.2.2 (by decide)⟩

/-- C3: the `@` operator follows the shape-dependent linear-algebra
semantics: 2-D times 2-D is the matrix product, 2-D times 1-D the
matrix-vector product, 1-D times 1-D the scalar dot product with result
shape `()`; the result's op tag is `MATMUL` and its children set the pair
of the two operands. -/
theorem tensor_matmul_spec (a b : Tensor) :
    (∀ n m p, a.shape = [n, m] → b.shape = [m, p] →
      Tensor.matmul a b =
        .ok ⟨0, NDArray.mm a.data b.data n m p, .MATMUL, {a.tid, b.tid}, none⟩) ∧
    (∀ n m, a.shape = [n, m] → b.shape = [m] →
      Tensor.matmul a b =
        .ok ⟨0, NDArray.mv a.data b.data n m, .MATMUL, {a.tid, b.tid}, none⟩) ∧
    (∀ n, a.shape = [n] → b.shape = [n] →
      Tensor.matmul a b =
        .ok ⟨0, NDArray.dotv a.data b.data n, .MATMUL, {a.tid, b.tid}, none⟩ ∧
      (NDArray.dotv a.data b.data n).shape = []) := by
  refine ⟨?_, ?_, ?_⟩
  · intro n m p h1 h2
    simp only [Tensor.shape] at h1 h2
    unfold Tensor.matmul
    rw [h1, h2]
    simp
  · intro n m h1 h2
    simp only [Tensor.shape] at h1 h2
    unfold Tensor.matmul
    rw [h1, h2]
    simp
  · intro n h1 h2
    simp only [Tensor.shape] at h1 h2
    refine ⟨?_, rfl⟩
    unfold Tensor.matmul
    rw [h1, h2]
    simp

/-- C3 witness: the spec's concrete instances —
`[[1, 2], [3, 4]] @ [[5, 6], [7, 8]] = [[19, 22], [43, 50]]`, the
matrix-vector product `[[1, 2], [3, 4]] @ [1, 2] = [5, 11]`, and the dot
product `[1, 2] @ [3, 4] = 11` of shape `()`. -/
theorem tensor_matmul_spec_wit :
    (Tensor.ofArray 1 ⟨[2, 2], [1, 2, 3, 4]⟩ none).shape = [2, 2] ∧
    (Tensor.ofArray 3 ⟨[2], [1, 2]⟩ none).shape = [2] ∧
    Tensor.matmul (Tensor.ofArray 1 ⟨[2, 2], [1, 2, 3, 4]⟩ none)
        (Tensor.ofArray 2 ⟨[2, 2], [5, 6, 7, 8]⟩ none) =
      .ok ⟨0, ⟨[2, 2], [19, 22, 43, 50]⟩, .MATMUL, {1, 2}, none⟩ ∧
    Tensor.matmul (Tensor.ofArray 1 ⟨[2, 2], [1, 2, 3, 4]⟩ none)
        (Tensor.ofArray 3 ⟨[2], [1, 2]⟩ none) =
      .ok ⟨0, ⟨[2], [5, 11]⟩, .MATMUL, {1, 3}, none⟩ ∧
    Tensor.matmul (Tensor.ofArray 3 ⟨[2], [1, 2]⟩ none)
        (Tensor.ofArray 4 ⟨[2], [3, 4]⟩ none) =
      .ok ⟨0, ⟨[], [11]⟩, .MATMUL, {3, 4}, none⟩ ∧
    (⟨[], [11]⟩ : NDArray).shape = [] := by
  have h1 := (tensor_matmul_spec (Tensor.ofArray 1 ⟨[2, 2], [1, 2, 3, 4]⟩ none)
    (Tensor.ofArray 2 ⟨[2, 2], [5, 6, 7, 8]⟩ none)).1 2 2 2 (by decide) (by decide)
  have h2 := (tensor_matmul_spec (Tensor.ofArray 1 ⟨[2, 2], [1, 2, 3, 4]⟩ none)
    (Tensor.ofArray 3 ⟨[2], [1, 2]⟩ none)).2.1 2 2 (by decide) (by decide)
  have h3 := (tensor_matmul_spec (Tensor.ofArray 3 ⟨[2], [1, 2]⟩ none)
    (Tensor.ofArray 4 ⟨[2], [3, 4]⟩ none)).2.2 2 (by decide) (by decide)
  exact ⟨by decide, by decide, h1.trans (congrArg Except.ok (by decide)),
    h2.trans (congrArg Except.ok (by decide)),
    h3.1.trans (congrArg Except.ok (by decide)), rfl⟩

/-- C4: for every rank-0 (shape `()`) tensor `s` and every tensor `m`,
`s @ m` and `m @ s` are rejected with a value error — an error distinct
from the shape/broadcast error — and no result node is constructed,
whereas ordinary `*` accepts the same operands (a scalar broadcasts). -/
theorem matmul_scalar_rejected (s m : Tensor) (h : s.shape = []) :
    Tensor.matmul s m = .error .valueError ∧
    Tensor.matmul m s = .error .valueError ∧
    TensorError.valueError ≠ TensorError.shapeError ∧
    (∃ r, Tensor.mul s m = .ok r) := by
  simp only [Tensor.shape] at h
  refine ⟨?_, ?_, by simp, ?_⟩
  · unfold Tensor.matmul
    rw [if_pos (Or.inl h)]
  · unfold Tensor.matmul
    rw [if_pos (Or.inr h)]
  · have hb : broadcastable s.data.shape m.data.shape = true := by
      rw [h]
      exact broadcastable_nil_left m.data.shape
    refine ⟨⟨0, ⟨broadcastShape s.data.shape m.data.shape,
      (indicesOf (broadcastShape s.data.shape m.data.shape)).map
        (fun idx => s.data.getAt (projectIdx s.data.shape idx) *
          m.data.getAt (projectIdx m.data.shape idx))⟩, .MULT, {s.tid, m.tid}, none⟩, ?_⟩
    unfold Tensor.mul
    simp only [NDArray.zipElem]
    rw [if_pos hb]

/-- C4 witness: the scalar tensor `2` of shape `()` against the matrix
`[[1, 2], [3, 4]]`: both `@` orders fail with the value error, while `*`
succeeds and broadcasts. -/
theorem matmul_scalar_rejected_wit :
    (Tensor.ofArray 7 ⟨[], [2]⟩ none).shape = [] ∧
    Tensor.matmul (Tensor.ofArray 7 ⟨[], [2]⟩ none)
        (Tensor.ofArray 1 ⟨[2, 2], [1, 2, 3, 4]⟩ none) = .error .valueError ∧
    Tensor.matmul (Tensor.ofArray 1 ⟨[2, 2], [1, 2, 3, 4]⟩ none)
        (Tensor.ofArray 7 ⟨[], [2]⟩ none) = .error .valueError ∧
    Tensor.mul (Tensor.ofArray 7 ⟨[], [2]⟩ none)
        (Tensor.ofArray 1 ⟨[2, 2], [1, 2, 3, 4]⟩ none) =
      .ok ⟨0, ⟨[2, 2], [2, 4, 6, 8]⟩, .MULT, {7, 1}, none⟩ := by
  have h := matmul_scalar_rejected (Tensor.ofArray 7 ⟨[], [2]⟩ none)
    (Tensor.ofArray 1 ⟨[2, 2], [1, 2, 3, 4]⟩ none) (by decide)
  refine ⟨by decide, h.1, h.2.1, ?_⟩
  rfl

/-- C6: stacking a nonempty sequence of equal-shape tensors along a valid
axis succeeds and returns one tensor of rank one higher, whose data is
the backend's stacking of the operand arrays, whose op tag is `STACK`
and whose children set is the set of all input tensors. -/
theorem tensor_stack_spec (t0 : Tensor) (rest : List Tensor) (axis : Nat)
    (hsh : ∀ t ∈ (t0 :: rest), t.shape = t0.shape) (hax : axis ≤ t0.shape.length) :
    Tensor.stack (t0 :: rest) axis =
      .ok ⟨0, NDArray.stackArr ((t0 :: rest).map Tensor.data) axis, .STACK,
           ((t0 :: rest).map Tensor.tid).toFinset, none⟩ ∧
    (NDArray.stackArr ((t0 :: rest).map Tensor.data) axis).shape.length =
      t0.shape.length + 1 := by
  have hall : rest.all (fun t => t.data.shape == t0.data.shape) = true := by
    rw [List.all_eq_true]
    intro t ht
    have hts := hsh t (List.mem_cons_of_mem t0 ht)
    simp only [Tensor.shape] at hts
    simp [hts]
  constructor
  · simp only [Tensor.stack]
    rw [if_pos hall]
  · show ((((t0 :: rest).map Tensor.data).headD ⟨[], []⟩).shape.insertIdx axis
        ((t0 :: rest).map Tensor.data).length).length = t0.shape.length + 1
    simp only [List.map_cons, List.headD_cons]
    exact List.length_insertIdx axis t0.data.shape hax

/-- C6 witness: the concrete stackings of the test-suite — `[1, 2, 3]`,
`[4, 5, 6]`, `[7, 8, 9]` along axes 0 and 1, and `[[1, 2], [3, 4]]`,
`[[5, 6], [7, 8]]` along axes 0 and 2 — each equal to the backend's
stacking, with tag `STACK` and the inputs as children. -/
theorem tensor_stack_spec_wit :
    Tensor.stack [Tensor.ofArray 1 ⟨[3], [1, 2, 3]⟩ none,
        Tensor.ofArray 2 ⟨[3], [4, 5, 6]⟩ none,
        Tensor.ofArray 3 ⟨[3], [7, 8, 9]⟩ none] 0 =
      .ok ⟨0, ⟨[3, 3], [1, 2, 3, 4, 5, 6, 7, 8, 9]⟩, .STACK, {1, 2, 3}, none⟩ ∧
    Tensor.stack [Tensor.ofArray 1 ⟨[3], [1, 2, 3]⟩ none,
        Tensor.ofArray 2 ⟨[3], [4, 5, 6]⟩ none,
        Tensor.ofArray 3 ⟨[3], [7, 8, 9]⟩ none] 1 =
      .ok ⟨0, ⟨[3, 3], [1, 4, 7, 2, 5, 8, 3, 6, 9]⟩, .STACK, {1, 2, 3}, none⟩ ∧
    Tensor.stack [Tensor.ofArray 4 ⟨[2, 2], [1, 2, 3, 4]⟩ none,
        Tensor.ofArray 5 ⟨[2, 2], [5, 6, 7, 8]⟩ none] 0 =
      .ok ⟨0, ⟨[2, 2, 2], [1, 2, 3, 4, 5, 6, 7, 8]⟩, .STACK, {4, 5}, none⟩ ∧
    Tensor.stack [Tensor.ofArray 4 ⟨[2, 2], [1, 2, 3, 4]⟩ none,
        Tensor.ofArray 5 ⟨[2, 2], [5, 6, 7, 8]⟩ none] 2 =
      .ok ⟨0, ⟨[2, 2, 2], [1, 5, 2, 6, 3, 7, 4, 8]⟩, .STACK, {4, 5}, none⟩ := by
  have h1 := (tensor_stack_spec (Tensor.ofArray 1 ⟨[3], [1, 2, 3]⟩ none)
    [Tensor.ofArray 2 ⟨[3], [4, 5, 6]⟩ none, Tensor.ofArray 3 ⟨[3], [7, 8, 9]⟩ none] 0
    (by decide) (by decide)).1
  have h2 := (tensor_stack_spec (Tensor.ofArray 1 ⟨[3], [1, 2, 3]⟩ none)
    [Tensor.ofArray 2 ⟨[3], [4, 5, 6]⟩ none, Tensor.ofArray 3 ⟨[3], [7, 8, 9]⟩ none] 1
    (by decide) (by decide)).1
  have h3 := (tensor_stack_spec (Tensor.ofArray 4 ⟨[2, 2], [1, 2, 3, 4]⟩ none)
    [Tensor.ofArray 5 ⟨[2, 2], [5, 6, 7, 8]⟩ none] 0 (by decide) (by decide)).1
  have h4 := (tensor_stack_spec (Tensor.ofArray 4 ⟨[2, 2], [1, 2, 3, 4]⟩ none)
    [Tensor.ofArray 5 ⟨[2, 2], [5, 6, 7, 8]⟩ none] 2 (by decide) (by decide)).1
  exact ⟨h1.trans (congrArg Except.ok (by decide)),
    h2.trans (congrArg Except.ok (by decide)),
    h3.trans (congrArg Except.ok (by decide)),
    h4.trans (congrArg Except.ok (by decide))⟩

/-- C7 counterexample: the bias of a neuron is not drawn from the
Gaussian sampler at an input-size-dependent scale — it is the constant
zero: with `n_input = 3` and the sampler constantly 1, the bias data is
`[0]`, which differs from the one value such a draw would produce, and
the bias is identical to the one produced with `n_input = 7`, a
different activation, a different label and a different sampler. -/
theorem neuron_bias_not_gaussian :
    (Neuron.init 3 .RELU none (fun _ _ => 1) 0 1).b.data.data = [0] ∧
    (Neuron.init 3 .RELU none (fun _ _ => 1) 0 1).b.data.data ≠
      (List.range 1).map ((fun _ _ => (1 : Int)) (Neuron.variance 3)) ∧
    (Neuron.init 3 .RELU none (fun _ _ => 1) 0 1).b =
      (Neuron.init 7 .TANH (some "L") (fun _ _ => 2) 0 1).b :=
  ⟨rfl, by decide, rfl⟩

/-- C7 (amended): `Neuron(n_input, activation)` owns a weight tensor of
shape `(1, n_input)` and a bias tensor of shape `(1,)`, both leaf
tensors (`op = NONE`, no children); the weight is initialized by the
Gaussian scheme — entry by entry from the normal sampler at the
caller-independent but input-size-dependent variance
`2 / (n_input + 1)` — while the bias is initialized to zero. -/
theorem neuron_init_spec (n_input : Nat) (act : Activation) (lbl : Option String)
    (sampler : ℚ → Nat → Int) (wtid btid : Nat) :
    (Neuron.init n_input act lbl sampler wtid btid).w.shape = [1, n_input] ∧
    (Neuron.init n_input act lbl sampler wtid btid).w.op = .NONE ∧
    (Neuron.init n_input act lbl sampler wtid btid).w.children = ∅ ∧
    (Neuron.init n_input act lbl sampler wtid btid).w.data.data =
      (List.range n_input).map (sampler (Neuron.variance n_input)) ∧
    Neuron.variance n_input = 2 / (n_input + 1) ∧
    (Neuron.init n_input act lbl sampler wtid btid).b.shape = [1] ∧
    (Neuron.init n_input act lbl sampler wtid btid).b.op = .NONE ∧
    (Neuron.init n_input act lbl sampler wtid btid).b.children = ∅ ∧
    (Neuron.init n_input act lbl sampler wtid btid).b.data.data = [0] :=
  ⟨rfl, rfl, rfl, rfl, rfl, rfl, rfl, rfl, rfl⟩

/-- C8: for every tensor the engine's surface can produce, `op = NONE`
iff `children` is empty; every user-constructed leaf has `op = NONE` and
no children, and every tensor returned by an operator has a non-NONE op
tag and a nonempty children set. -/
theorem leaf_iff_no_children (t : Tensor) (h : Built t) :
    (t.op = .NONE ↔ t.children = ∅) ∧
    (∀ tid d lbl, (Tensor.ofArray tid d lbl).op = .NONE ∧
      (Tensor.ofArray tid d lbl).children = ∅) ∧
    (Derived t → t.op ≠ .NONE ∧ t.children ≠ ∅) := by
  refine ⟨?_, fun tid d lbl => ⟨rfl, rfl⟩, fun hd => derived_op_children t hd⟩
  cases h with
  | leaf tid d lbl => exact ⟨fun _ => rfl, fun _ => rfl⟩
  | derived u hd =>
    obtain ⟨h1, h2⟩ := derived_op_children t hd
    exact ⟨fun hc => absurd hc h1, fun hc => absurd hc h2⟩

/-- C8 witness: the leaf-iff-no-children equivalence at the concrete
leaf `Tensor([1, 2])`. -/
theorem leaf_iff_no_children_wit :
    ((Tensor.ofArray 3 ⟨[2], [1, 2]⟩ none).op = .NONE ↔
      (Tensor.ofArray 3 ⟨[2], [1, 2]⟩ none).children = ∅) :=
  (leaf_iff_no_children (Tensor.ofArray 3 ⟨[2], [1, 2]⟩ none)
    (Built.leaf 3 ⟨[2], [1, 2]⟩ none)).1

/-- C9: `Tensor(a).shape` equals the shape of the wrapped array; the
detailed representation is the string `Tensor(shape=` followed by the
shape and `)`; `str` equals `repr` for every tensor; a tensor
constructed with a label exposes it verbatim and one constructed
without a label has label `None`. -/
theorem tensor_ctor_repr_spec (tid : Nat) (d : NDArray) (lbl : Option String)
    (t : Tensor) (l : String) :
    (Tensor.ofArray tid d lbl).shape = d.shape ∧
    Tensor.reprStr (Tensor.ofArray tid d lbl) = "Tensor(shape=" ++ shapeRepr d.shape ++ ")" ∧
    Tensor.toStr t = Tensor.reprStr t ∧
    (Tensor.ofArray tid d (some l)).label = some l ∧
    (Tensor.ofArray tid d none).label = none :=
  ⟨rfl, rfl, rfl, rfl, rfl⟩

/-- C10: an MLP constructed with an empty layers list has no layers, and
calling it returns the input itself, unchanged — the forward pass is the
identity. -/
theorem mlp_empty_identity (n_input : Nat) (lbl : Option String)
    (sampler : ℚ → Nat → Int) (sem : ActSem) (x : Tensor) :
    (MLP.init n_input [] lbl sampler).layers = [] ∧
    MLP.call sem (MLP.init n_input [] lbl sampler) x = .ok x :=
  ⟨rfl, rfl⟩
